import Mathlib

/-!
# Day 1 location lists: a verification development

A shallow embedding of `day1/main.cpp`.

* A `std::string` is a list of characters; a `std::vector<int>` is a list of
  integers.
* A thrown `std::runtime_error` is the `error` case of `Except Error _`; the
  constructor of `Error` records which `throw` statement was reached together
  with the values formatted into its message.
* `computeDistanceSum` sorts its two arguments in place, so its embedding
  returns the two vectors as they are after the call next to the result.
* The arithmetic of the C++ type `int` is a parameter of the two reducers
  (`IntArith`): `int32`, the arithmetic of the program, stores every result in
  32-bit two's complement; `exactInt` is the idealised arithmetic on
  mathematical integers the 32-bit run is compared with.
-/

namespace Day1

/-! ## Data model -/

/-- The C++ alias `Locations = std::vector<int>`. -/
abbrev Locations := List Int

/-- A line of text, or a token of it (`std::string`). -/
abbrev Str := List Char

/-- The `throw` statements of the program, following the error kinds of the
specification: `notFound` (file does not exist), `io` (file cannot be opened),
`format` (expected two entries per line, with the number found), `parse`
(one of the two tokens cannot be converted, with both tokens),
`lengthMismatch` (with both sizes), and the two self-check failures of `main`
(with the expected and the computed value). -/
inductive Error where
  | notFound
  | io
  | format (found : Nat)
  | parse (first second : Str)
  | lengthMismatch (leftSize rightSize : Nat)
  | test1 (expected got : Int)
  | test2 (expected got : Int)
  deriving DecidableEq, Repr

deriving instance DecidableEq for Except

/-! ## Arithmetic of `int` -/

/-- The value a 32-bit two's complement `int` holds after a mathematical
result `x` is stored in it (wrap-around modulo `2^32`). -/
def toInt32 (x : Int) : Int := (x + 2147483648) % 4294967296 - 2147483648

/-- Whether `x` is a value of the 32-bit signed type: `INT_MIN ≤ x ≤ INT_MAX`. -/
def fitsInt32 (x : Int) : Prop := -2147483648 ≤ x ∧ x ≤ 2147483647

instance (x : Int) : Decidable (fitsInt32 x) := by
  unfold fitsInt32; exact inferInstance

/-- Semantics of storing the result of an `int` operation. -/
structure IntArith where
  /-- The representable value kept for a mathematical result. -/
  store : Int → Int

/-- 32-bit signed `int`, as on the platforms the program targets. -/
def int32 : IntArith := ⟨toInt32⟩

/-- Exact integer arithmetic, an idealisation in which nothing is ever
truncated. The compiled program computes with `int32`; this instance serves to
compare the 32-bit run with the mathematical value. -/
def exactInt : IntArith := ⟨fun x => x⟩

/-- The function `std::abs` on the mathematical value of its argument. -/
def intAbs (x : Int) : Int := if x < 0 then -x else x

/-! ## Tokenizer -/

/-- The character class `\s` of `std::regex` in the classic locale, which is
also `isspace` of `strtol`: space, `\t`, `\n`, `\v`, `\f`, `\r`. -/
def isSpace (c : Char) : Bool :=
  c.toNat == 32 || (9 ≤ c.toNat && c.toNat ≤ 13)

/-- The walk of `std::sregex_token_iterator` with submatch `-1` over the
matches of `\s+`. `inSep` says that the previous character belongs to the
current match, `cur` is the text read since the end of the previous match.
Every match (a maximal run of whitespace) yields the text in front of it, also
when that text is empty; after the last match the rest of the string is
yielded only if it is not empty. -/
def tokenizeFrom : Bool → Str → Str → List Str
  | _, cur, [] => if cur.isEmpty then [] else [cur]
  | inSep, cur, c :: rest =>
    if isSpace c then
      if inSep then tokenizeFrom true [] rest
      else cur :: tokenizeFrom true [] rest
    else tokenizeFrom false (cur ++ [c]) rest

/-- The function `tokenize(string, separator)` for the separator `\s+`, the
only one the program passes (the compiled regex is a function-local static, so
the first separator is also the only one ever used). -/
def tokenize (string : Str) : List Str :=
  if string.isEmpty then [] else tokenizeFrom false [] string

/-! ## Line parser -/

/-- Decimal digit test of `strtol` in base 10. -/
def isDigit (c : Char) : Bool := 48 ≤ c.toNat && c.toNat ≤ 57

/-- Value of a decimal digit character. -/
def digitValue (c : Char) : Nat := c.toNat - 48

/-- The digit loop of `strtol`: reads digits while there are any, ignoring
whatever follows; `none` when there is no digit at all. -/
def readDigits : Option Nat → Str → Option Nat
  | acc, [] => acc
  | acc, c :: rest =>
    if isDigit c then readDigits (some (acc.getD 0 * 10 + digitValue c)) rest
    else acc

/-- The sign step of `strtol` followed by the digit loop. -/
def readSigned : Str → Option Int
  | [] => none
  | c :: rest =>
    if c = '-' then (readDigits none rest).map (fun n => -(n : Int))
    else if c = '+' then (readDigits none rest).map (fun n => (n : Int))
    else (readDigits none (c :: rest)).map (fun n => (n : Int))

/-- The function `std::stoi(str)`: `strtol` skips leading whitespace, reads an
optional sign and the longest run of digits; `none` stands for the exception
thrown when no digit was read (`std::invalid_argument`) or when the value is
not an `int` (`std::out_of_range`). -/
def stoi (str : Str) : Option Int :=
  match readSigned (str.dropWhile isSpace) with
  | none => none
  | some v => if fitsInt32 v then some v else none

/-- The lambda `parseLine` of `getLocationsFromFile`. -/
def parseLine (line : Str) : Except Error (Int × Int) :=
  let numbers := tokenize line
  match numbers with
  | [first, second] =>
    match stoi first, stoi second with
    | some l, some r => .ok (l, r)
    | _, _ => .error (.parse first second)
  | _ => .error (.format numbers.length)

/-! ## Loader -/

/-- What the loader finds at a path. -/
inductive File where
  | missing
  | unreadable
  | readable (lines : List Str)
  deriving DecidableEq, Repr

/-- The `while (std::getline ...)` loop of `getLocationsFromFile`, started
with the two vectors built so far. -/
def readLines : List Str → Locations → Locations → Except Error (Locations × Locations)
  | [], leftLocations, rightLocations => .ok (leftLocations, rightLocations)
  | line :: rest, leftLocations, rightLocations =>
    match parseLine line with
    | .error e => .error e
    | .ok (left, right) => readLines rest (leftLocations ++ [left]) (rightLocations ++ [right])

/-- The function `getLocationsFromFile(path)`, on what is found at the path. -/
def getLocationsFromFile : File → Except Error (Locations × Locations)
  | .missing => .error .notFound
  | .unreadable => .error .io
  | .readable lines => readLines lines [] []

/-! ## Reducers -/

/-- The function `std::ranges::sort` on a vector of `int`. -/
def sort (v : Locations) : Locations := v.insertionSort (fun a b => a ≤ b)

/-- State after a call of `computeDistanceSum`: both vectors as the call
leaves them, and the value returned or the exception thrown. -/
structure DistanceRun where
  left : Locations
  right : Locations
  result : Except Error Int
  deriving DecidableEq, Repr

/-- The function `computeDistanceSum(left, right)`. -/
def computeDistanceSum (A : IntArith) (left right : Locations) : DistanceRun :=
  let left := sort left
  let right := sort right
  if left.length ≠ right.length then
    ⟨left, right, .error (.lengthMismatch left.length right.length)⟩
  else
    let differences := List.zipWith (fun l r => A.store (intAbs (A.store (l - r)))) left right
    ⟨left, right, .ok (differences.foldl (fun acc d => A.store (acc + d)) 0)⟩

/-- The function `computeSimilarityScore(left, right)`. The product is formed
in the type of `std::ranges::count` (a 64-bit signed type) and stored into a
vector of `int`. -/
def computeSimilarityScore (A : IntArith) (left right : Locations) : Int :=
  let similarities := left.map (fun locationId => A.store (locationId * (right.count locationId : Int)))
  similarities.foldl (fun acc s => A.store (acc + s)) 0

/-- The self-check block at the start of `main`, on the content of the test
file. -/
def selfCheck (A : IntArith) (testFile : File) : Except Error Unit :=
  match getLocationsFromFile testFile with
  | .error e => .error e
  | .ok locations =>
    let run := computeDistanceSum A locations.1 locations.2
    match run.result with
    | .error e => .error e
    | .ok result =>
      if (11 : Int) ≠ result then .error (.test1 11 result)
      else
        let result2 := computeSimilarityScore A run.left run.right
        if (31 : Int) ≠ result2 then .error (.test2 31 result2)
        else .ok ()

/-- The six lines of the example input. -/
def exampleLines : List Str :=
  ["3   4".toList, "4   3".toList, "2   5".toList, "1   3".toList, "3   9".toList, "3   3".toList]

/-! ## Specification-side definitions -/

/-- The distance sum as the specification words it: the sum over all indices
`i` of `|sortedLeft[i] - sortedRight[i]|`. -/
def distanceSpec (sortedLeft sortedRight : Locations) : Int :=
  ∑ i in Finset.range sortedLeft.length, |sortedLeft.getD i 0 - sortedRight.getD i 0|

/-- The similarity score as the specification words it: the sum, over every
element `v` of `left`, of `v` times the number of occurrences of `v` in
`right`. -/
def similaritySpec (left right : Locations) : Int :=
  (left.map (fun v => v * (right.count v : Int))).sum

/-- Whether a string is a non-empty run of decimal digits. -/
def isDigitRun (ds : Str) : Bool := !ds.isEmpty && ds.all isDigit

/-- A valid base-10 integer in the words of the specification: an optional
sign followed by one or more decimal digits and nothing else. -/
def isIntLiteral : Str → Bool
  | [] => false
  | c :: rest => if c = '-' ∨ c = '+' then isDigitRun rest else isDigitRun (c :: rest)

/-- The number a run of decimal digits denotes in base 10. -/
def decimalValue (ds : Str) : Nat := Nat.ofDigits 10 (ds.reverse.map digitValue)

/-- The integer an integer literal denotes. -/
def literalValue : Str → Int
  | [] => 0
  | c :: rest =>
    if c = '-' then -(decimalValue rest : Int)
    else if c = '+' then (decimalValue rest : Int)
    else (decimalValue (c :: rest) : Int)

/-- Whether a string starts with a decimal digit. -/
def startsWithDigit : Str → Bool
  | [] => false
  | d :: _ => isDigit d

/-- Whether a string starts with a base-10 integer: an optional sign followed
by at least one decimal digit, whatever comes after. -/
def startsWithInt : Str → Bool
  | [] => false
  | c :: rest => if c = '-' ∨ c = '+' then startsWithDigit rest else isDigit c

/-- The maximal whitespace-free substrings of a line, in order: the line is
cut at every whitespace character and the empty pieces are dropped. -/
def wordsSpec (line : Str) : List Str :=
  (line.splitOnP isSpace).filter (fun t => !t.isEmpty)

/-- Whether a line begins with a whitespace character. -/
def startsWithSpace : Str → Bool
  | [] => false
  | c :: _ => isSpace c

/-- The sum of absolute differences of two lists taken row by row, as they are
paired: the sum over all indices `i` of `|left[i] - right[i]|`. -/
def pairedDistance (left right : Locations) : Int :=
  ∑ i in Finset.range left.length, |left.getD i 0 - right.getD i 0|

/-! ## Lemmas on the arithmetic -/

theorem intAbs_eq_abs (x : Int) : intAbs x = |x| := by
  unfold intAbs
  split
  · rename_i h; rw [abs_of_neg h]
  · rename_i h; rw [abs_of_nonneg (not_lt.mp h)]

theorem toInt32_of_fits {x : Int} (h : fitsInt32 x) : toInt32 x = x := by
  unfold fitsInt32 at h
  unfold toInt32
  omega

theorem foldl_add_eq_sum (l : List Int) (acc : Int) :
    l.foldl (fun a d => a + d) acc = acc + l.sum := by
  induction l generalizing acc with
  | nil => simp
  | cons x xs ih => simp [ih, add_assoc]

theorem zipWith_sum_eq_range (f : Int → Int → Int) (a b : List Int)
    (h : a.length = b.length) :
    (List.zipWith f a b).sum = ∑ i in Finset.range a.length, f (a.getD i 0) (b.getD i 0) := by
  induction a generalizing b with
  | nil => simp
  | cons x xs ih =>
    cases b with
    | nil => simp at h
    | cons y ys =>
      simp only [List.length_cons, Nat.succ.injEq] at h
      simp [Finset.sum_range_succ', ih ys h, add_comm]

theorem sort_eq_of_sorted_perm {v s : Locations}
    (hs : s.Sorted (fun a b => a ≤ b)) (hp : s.Perm v) : sort v = s := by
  unfold sort
  exact List.eq_of_perm_of_sorted ((List.perm_insertionSort _ v).trans hp.symm)
    (List.sorted_insertionSort _ v) hs

theorem length_sort (v : Locations) : (sort v).length = v.length := by
  unfold sort
  exact List.length_insertionSort _ v

/-! ## The similarity reducer -/

theorem similaritySpec_append (l : Locations) (v : Int) (right : Locations) :
    similaritySpec (l ++ [v]) right = similaritySpec l right + v * (right.count v : Int) := by
  simp [similaritySpec]

/-- C2, as it is stated, fails on 32-bit `int`: a file of two lines
`2147483647 2147483647` loads `left = right = [2147483647, 2147483647]`; each
product `2147483647 * 2` is stored into the vector of `int` as `-2`, and the
function returns `-4`, while the sum of the claim is `8589934588`. -/
theorem computeSimilarityScore_int32_counterexample :
    getLocationsFromFile
        (.readable ["2147483647 2147483647".toList, "2147483647 2147483647".toList])
      = .ok ([2147483647, 2147483647], [2147483647, 2147483647]) ∧
    computeSimilarityScore int32 [2147483647, 2147483647] [2147483647, 2147483647] = -4 ∧
    similaritySpec [2147483647, 2147483647] [2147483647, 2147483647] = 8589934588 := by
  decide

/-- C2 (amended): for lists of any lengths, equal or not, `computeSimilarityScore`
on 32-bit `int` returns the sum, over every element `v` of `left` with
duplicates included, of `v` times the number of occurrences of `v` in `right`,
provided every such product and every partial sum of them is a 32-bit signed
value. The function has no failure path. -/
theorem computeSimilarityScore_eq_similaritySpec (left right : Locations)
    (hterm : ∀ v ∈ left, fitsInt32 (v * (right.count v : Int)))
    (hsum : ∀ k, k ≤ left.length → fitsInt32 (similaritySpec (left.take k) right)) :
    computeSimilarityScore int32 left right = similaritySpec left right := by
  induction left using List.reverseRecOn with
  | nil => simp [computeSimilarityScore, similaritySpec]
  | append_singleton l v ih =>
    have hprev : computeSimilarityScore int32 l right = similaritySpec l right := by
      apply ih
      · intro w hw
        exact hterm w (List.mem_append_left _ hw)
      · intro k hk
        have h := hsum k (by simp; omega)
        rwa [List.take_append_of_le_length hk] at h
    have hv := hterm v (by simp)
    have hall := hsum (l ++ [v]).length (le_refl _)
    rw [List.take_length, similaritySpec_append] at hall
    unfold computeSimilarityScore at hprev ⊢
    simp only [List.map_append, List.map_cons, List.map_nil, List.foldl_append,
      List.foldl_cons, List.foldl_nil, hprev, similaritySpec_append]
    simp only [int32, toInt32_of_fits hv, toInt32_of_fits hall]

/-- Witness of C2 (amended) on the example lists, of different lengths. -/
theorem computeSimilarityScore_eq_similaritySpec_witness :
    computeSimilarityScore int32 [3, 4, 2, 1, 3, 3] [4, 3, 5, 3, 9, 3, 3]
      = similaritySpec [3, 4, 2, 1, 3, 3] [4, 3, 5, 3, 9, 3, 3] :=
  computeSimilarityScore_eq_similaritySpec [3, 4, 2, 1, 3, 3] [4, 3, 5, 3, 9, 3, 3]
    (by decide) (by decide)

/-! ## Length check of the distance reducer -/

/-- C3: `computeDistanceSum` throws the length-mismatch error exactly when the
two lengths differ, and returns a number exactly when they are equal, so on
unequal lengths it never returns a number. This holds whatever the arithmetic
of `int` is. -/
theorem computeDistanceSum_lengthMismatch_iff (A : IntArith) (left right : Locations) :
    ((computeDistanceSum A left right).result
        = .error (.lengthMismatch left.length right.length)
      ↔ left.length ≠ right.length) ∧
    ((∃ e, (computeDistanceSum A left right).result = .error e)
      ↔ left.length ≠ right.length) ∧
    ((∃ n, (computeDistanceSum A left right).result = .ok n)
      ↔ left.length = right.length) := by
  unfold computeDistanceSum
  simp only [length_sort]
  by_cases h : left.length = right.length
  · simp [h]
  · simp [h]

/-! ## The self-check of `main` -/

/-- C4: on the six example lines the loader returns `left = [3,4,2,1,3,3]` and
`right = [4,3,5,3,9,3]`; `computeDistanceSum` on them returns 11 and leaves
both vectors sorted; `computeSimilarityScore` on the sorted vectors returns 31;
so the self-check block of `main` throws nothing. -/
theorem selfCheck_example :
    getLocationsFromFile (.readable exampleLines)
      = .ok ([3, 4, 2, 1, 3, 3], [4, 3, 5, 3, 9, 3]) ∧
    computeDistanceSum int32 [3, 4, 2, 1, 3, 3] [4, 3, 5, 3, 9, 3]
      = ⟨[1, 2, 3, 3, 3, 4], [3, 3, 3, 4, 5, 9], .ok 11⟩ ∧
    computeSimilarityScore int32 [1, 2, 3, 3, 3, 4] [3, 3, 3, 4, 5, 9] = 31 ∧
    selfCheck int32 (.readable exampleLines) = .ok () := by
  decide

/-! ## The loader -/

theorem readLines_of_all_ok (lines : List Str) (pairs : List (Int × Int))
    (l r : Locations) (h : lines.map parseLine = pairs.map Except.ok) :
    readLines lines l r = .ok (l ++ pairs.map Prod.fst, r ++ pairs.map Prod.snd) := by
  induction lines generalizing pairs l r with
  | nil =>
    cases pairs with
    | nil => simp [readLines]
    | cons p ps => simp at h
  | cons line rest ih =>
    cases pairs with
    | nil => simp at h
    | cons p ps =>
      simp only [List.map_cons, List.cons.injEq] at h
      obtain ⟨a, b⟩ := p
      simp only [readLines, h.1]
      rw [ih ps _ _ h.2]
      simp

theorem readLines_of_first_error (before : List Str) (line : Str) (after : List Str)
    (e : Error) (l r : Locations) (hb : ∀ x ∈ before, ∃ p, parseLine x = .ok p)
    (he : parseLine line = .error e) :
    readLines (before ++ line :: after) l r = .error e := by
  induction before generalizing l r with
  | nil => simp [readLines, he]
  | cons x xs ih =>
    obtain ⟨⟨a, b⟩, hp⟩ := hb x (by simp)
    simp only [List.cons_append, readLines, hp]
    exact ih _ _ (fun y hy => hb y (List.mem_cons_of_mem _ hy))

theorem readLines_length (lines : List Str) (l r l2 r2 : Locations)
    (h : readLines lines l r = .ok (l2, r2)) :
    l2.length = l.length + lines.length ∧ r2.length = r.length + lines.length := by
  induction lines generalizing l r with
  | nil =>
    simp only [readLines, Except.ok.injEq, Prod.mk.injEq] at h
    simp [h.1, h.2]
  | cons line rest ih =>
    unfold readLines at h
    split at h
    · simp at h
    · have := ih _ _ h
      simp only [List.length_append, List.length_cons, List.length_nil] at this ⊢
      omega

/-- C5: the line loop of the loader is the fail-fast map of the line parser.
If line `i` parses to `pairs[i]` for every `i`, the loader returns the first
components and the second components of `pairs`, in file order. If some line
fails with error `e` and all lines before it parse, the loader fails with `e`
and returns no lists. -/
theorem getLocationsFromFile_failFast (lines : List Str) :
    (∀ pairs : List (Int × Int), lines.map parseLine = pairs.map Except.ok →
      getLocationsFromFile (.readable lines)
        = .ok (pairs.map Prod.fst, pairs.map Prod.snd)) ∧
    (∀ (before : List Str) (line : Str) (after : List Str) (e : Error),
      lines = before ++ line :: after →
      (∀ x ∈ before, ∃ p, parseLine x = .ok p) →
      parseLine line = .error e →
      getLocationsFromFile (.readable lines) = .error e) := by
  constructor
  · intro pairs h
    simpa [getLocationsFromFile] using readLines_of_all_ok lines pairs [] [] h
  · intro before line after e hl hb he
    subst hl
    exact readLines_of_first_error before line after e [] [] hb he

/-- Witness of C5: three lines that parse, and a load that stops at the first
failing line (`"x"`, one token) although a later line fails differently. -/
theorem getLocationsFromFile_failFast_witness :
    getLocationsFromFile (.readable ["3   4".toList, "4   3".toList, "2   5".toList])
      = .ok ([3, 4, 2], [4, 3, 5]) ∧
    getLocationsFromFile (.readable ["3   4".toList, "x".toList, "2   y".toList])
      = .error (.format 1) :=
  ⟨(getLocationsFromFile_failFast _).1 [(3, 4), (4, 3), (2, 5)] (by decide),
   (getLocationsFromFile_failFast _).2 ["3   4".toList] "x".toList ["2   y".toList]
      (.format 1) (by decide)
      (fun x hx => ⟨(3, 4), by rw [List.mem_singleton.mp hx]; decide⟩) (by decide)⟩

/-- C6: when the loader succeeds, both returned lists have as many elements as
there are lines, so `computeDistanceSum` on them returns a number and does not
throw the length-mismatch error. -/
theorem getLocationsFromFile_lengths (A : IntArith) (lines : List Str)
    (left right : Locations)
    (h : getLocationsFromFile (.readable lines) = .ok (left, right)) :
    left.length = lines.length ∧ right.length = lines.length ∧
    ∃ n, (computeDistanceSum A left right).result = .ok n := by
  have hlen := readLines_length lines [] [] left right h
  simp only [List.length_nil, Nat.zero_add] at hlen
  refine ⟨hlen.1, hlen.2, ?_⟩
  unfold computeDistanceSum
  simp [length_sort, hlen.1, hlen.2]

/-- Witness of C6 on the six example lines. -/
theorem getLocationsFromFile_lengths_witness :
    [3, 4, 2, 1, 3, 3].length = exampleLines.length ∧
    [4, 3, 5, 3, 9, 3].length = exampleLines.length ∧
    ∃ n, (computeDistanceSum int32 [3, 4, 2, 1, 3, 3] [4, 3, 5, 3, 9, 3]).result = .ok n :=
  getLocationsFromFile_lengths int32 exampleLines [3, 4, 2, 1, 3, 3] [4, 3, 5, 3, 9, 3]
    (by decide)

/-! ## The line parser: token count -/

theorem parseLine_two_ne_format {line : Str} (first second : Str) (n : Nat)
    (h : tokenize line = [first, second]) : parseLine line ≠ .error (.format n) := by
  unfold parseLine
  simp only [h]
  split <;> simp

/-- C7: the line parser throws the wrong-token-count error exactly when
`tokenize` returns a number of tokens different from 2, and the error then
carries that number. In particular `"1 2 3"` (three tokens), `"10"` (one
token) and the empty line (no token) fail with this error. -/
theorem parseLine_format_iff (line : Str) :
    ((∃ n, parseLine line = .error (.format n)) ↔ (tokenize line).length ≠ 2) ∧
    (parseLine line = .error (.format (tokenize line).length)
      ↔ (tokenize line).length ≠ 2) ∧
    (tokenize "1 2 3".toList = ["1".toList, "2".toList, "3".toList] ∧
      parseLine "1 2 3".toList = .error (.format 3)) ∧
    (tokenize "10".toList = ["10".toList] ∧ parseLine "10".toList = .error (.format 1)) ∧
    (tokenize "".toList = [] ∧ parseLine "".toList = .error (.format 0)) := by
  refine ⟨?_, ?_, by decide, by decide, by decide⟩
  · match h : tokenize line with
    | [] => simp [parseLine, h]
    | [a] => simp [parseLine, h]
    | [a, b] =>
      simp only [List.length_cons, List.length_nil, ne_eq, not_true_eq_false, iff_false,
        not_exists]
      exact fun n => parseLine_two_ne_format a b n h
    | a :: b :: c :: rest => simp [parseLine, h]
  · match h : tokenize line with
    | [] => simp [parseLine, h]
    | [a] => simp [parseLine, h]
    | [a, b] =>
      simp only [List.length_cons, List.length_nil, ne_eq, not_true_eq_false, iff_false]
      exact parseLine_two_ne_format a b _ h
    | a :: b :: c :: rest => simp [parseLine, h]

/-! ## The line parser: conversion of the tokens -/

theorem readDigits_none_of_not_startsWithDigit (s : Str) (h : startsWithDigit s = false) :
    readDigits none s = none := by
  cases s with
  | nil => rfl
  | cons c rest =>
    simp only [startsWithDigit] at h
    simp [readDigits, h]

theorem readSigned_none_of_not_startsWithInt (s : Str) (h : startsWithInt s = false) :
    readSigned s = none := by
  cases s with
  | nil => rfl
  | cons c rest =>
    unfold startsWithInt at h
    unfold readSigned
    by_cases h1 : c = '-'
    · simp only [h1, true_or, if_true] at h ⊢
      simp [readDigits_none_of_not_startsWithDigit rest h]
    · by_cases h2 : c = '+'
      · simp only [h2, or_true, if_true] at h ⊢
        simp [readDigits_none_of_not_startsWithDigit rest h]
      · simp only [h1, h2, or_self, if_false] at h ⊢
        simp [readDigits, h]

theorem dropWhile_isSpace_of_no_space (t : Str) (h : ∀ c ∈ t, isSpace c = false) :
    t.dropWhile isSpace = t := by
  cases t with
  | nil => rfl
  | cons c rest => simp [List.dropWhile, h c (by simp)]

theorem parseLine_of_stoi_none {line : Str} (first second : Str)
    (htok : tokenize line = [first, second])
    (h : stoi first = none ∨ stoi second = none) :
    parseLine line = .error (.parse first second) := by
  unfold parseLine
  simp only [htok]
  split
  · rename_i l r h1 h2
    rcases h with h | h
    · rw [h] at h1; cases h1
    · rw [h] at h2; cases h2
  · rfl

theorem startsWithDigit_false_of_no_digit (s : Str) (h : ∀ c ∈ s, isDigit c = false) :
    startsWithDigit s = false := by
  cases s with
  | nil => rfl
  | cons c rest => simpa [startsWithDigit] using h c (by simp)

theorem startsWithInt_false_of_no_digit (s : Str) (h : ∀ c ∈ s, isDigit c = false) :
    startsWithInt s = false := by
  cases s with
  | nil => rfl
  | cons c rest =>
    simp only [startsWithInt]
    split
    · exact startsWithDigit_false_of_no_digit rest (fun d hd => h d (List.mem_cons_of_mem _ hd))
    · exact h c (by simp)

theorem stoi_none_of_no_digit (t : Str) (h : ∀ c ∈ t, isDigit c = false) :
    stoi t = none := by
  unfold stoi
  have hd : ∀ c ∈ t.dropWhile isSpace, isDigit c = false :=
    fun c hc => h c ((List.dropWhile_sublist isSpace).subset hc)
  rw [readSigned_none_of_not_startsWithInt _ (startsWithInt_false_of_no_digit _ hd)]

/-- C9: for a line of exactly two tokens of which at least one contains no
decimal digit, the line parser throws the conversion error (naming both
tokens), not the wrong-token-count error and not a value. -/
theorem parseLine_parse_error_of_no_digit (line first second : Str)
    (htok : tokenize line = [first, second])
    (h : (∀ c ∈ first, isDigit c = false) ∨ (∀ c ∈ second, isDigit c = false)) :
    parseLine line = .error (.parse first second) ∧
    (∀ n, parseLine line ≠ .error (.format n)) ∧
    (∀ p, parseLine line ≠ .ok p) := by
  have hp : parseLine line = .error (.parse first second) := by
    apply parseLine_of_stoi_none first second htok
    rcases h with h | h
    · exact Or.inl (stoi_none_of_no_digit first h)
    · exact Or.inr (stoi_none_of_no_digit second h)
  rw [hp]
  exact ⟨rfl, fun n => by simp, fun p => by simp⟩

/-- Witness of C9 on the line `"3 x"`. -/
theorem parseLine_parse_error_of_no_digit_witness :
    parseLine "3 x".toList = .error (.parse "3".toList "x".toList) ∧
    (∀ n, parseLine "3 x".toList ≠ .error (.format n)) ∧
    (∀ p, parseLine "3 x".toList ≠ .ok p) :=
  parseLine_parse_error_of_no_digit "3 x".toList "3".toList "x".toList
    (by decide) (Or.inr (by decide))

/-! ## The line parser: well-formed lines -/

theorem tokenizeFrom_append_token (inSep : Bool) (cur t rest : Str)
    (ht : ∀ c ∈ t, isSpace c = false) (hne : t ≠ [] ∨ inSep = false) :
    tokenizeFrom inSep cur (t ++ rest) = tokenizeFrom false (cur ++ t) rest := by
  induction t generalizing inSep cur with
  | nil =>
    rcases hne with h | h
    · exact absurd rfl h
    · simp [h]
  | cons c t ih =>
    have hc : isSpace c = false := ht c (by simp)
    have := ih false (cur ++ [c]) (fun d hd => ht d (List.mem_cons_of_mem _ hd)) (Or.inr rfl)
    simp only [List.cons_append, tokenizeFrom, hc, Bool.false_eq_true, if_false]
    simpa using this

theorem tokenizeFrom_skip_spaces (ws rest : Str) (hws : ∀ c ∈ ws, isSpace c = true) :
    tokenizeFrom true [] (ws ++ rest) = tokenizeFrom true [] rest := by
  induction ws with
  | nil => rfl
  | cons w ws ih =>
    have hw : isSpace w = true := hws w (by simp)
    simp only [List.cons_append, tokenizeFrom, hw, if_true]
    exact ih (fun d hd => hws d (List.mem_cons_of_mem _ hd))

theorem tokenizeFrom_space (cur rest : Str) (w : Char) (hw : isSpace w = true) :
    tokenizeFrom false cur (w :: rest) = cur :: tokenizeFrom true [] rest := by
  simp [tokenizeFrom, hw]

theorem tokenize_two (first ws second : Str)
    (hf : first ≠ [] ∧ ∀ c ∈ first, isSpace c = false)
    (hws : ws ≠ [] ∧ ∀ c ∈ ws, isSpace c = true)
    (hs : second ≠ [] ∧ ∀ c ∈ second, isSpace c = false) :
    tokenize (first ++ ws ++ second) = [first, second] := by
  obtain ⟨w, ws, rfl⟩ := List.exists_cons_of_ne_nil hws.1
  have hw : isSpace w = true := hws.2 w (by simp)
  have hstr : first ++ w :: ws ++ second = first ++ (w :: (ws ++ second)) := by simp
  have hne : (first ++ (w :: (ws ++ second))).isEmpty = false := by
    cases first with
    | nil => exact absurd rfl hf.1
    | cons c t => rfl
  have hlast : tokenizeFrom true [] second = [second] := by
    have := tokenizeFrom_append_token true [] second [] hs.2 (Or.inl hs.1)
    simp only [List.append_nil, List.nil_append] at this
    rw [this]
    cases second with
    | nil => exact absurd rfl hs.1
    | cons c t => simp [tokenizeFrom]
  rw [hstr]
  unfold tokenize
  rw [hne, if_neg (by simp), tokenizeFrom_append_token false [] first _ hf.2 (Or.inr rfl),
    List.nil_append, tokenizeFrom_space first _ w hw,
    tokenizeFrom_skip_spaces ws second (fun d hd => hws.2 d (List.mem_cons_of_mem _ hd)), hlast]

theorem decimalValue_cons (c : Char) (ds : Str) :
    decimalValue (c :: ds) = digitValue c * 10 ^ ds.length + decimalValue ds := by
  unfold decimalValue
  simp [Nat.ofDigits_append, Nat.ofDigits_singleton, Nat.mul_comm, Nat.add_comm]

theorem readDigits_some_of_all_digit (n : Nat) (ds : Str) (h : ds.all isDigit = true) :
    readDigits (some n) ds = some (n * 10 ^ ds.length + decimalValue ds) := by
  induction ds generalizing n with
  | nil => simp [readDigits, decimalValue]
  | cons c ds ih =>
    simp only [List.all_cons, Bool.and_eq_true] at h
    simp only [readDigits, h.1, if_true, Option.getD_some, ih _ h.2, decimalValue_cons,
      List.length_cons]
    congr 1
    ring

theorem readDigits_none_of_isDigitRun (ds : Str) (h : isDigitRun ds = true) :
    readDigits none ds = some (decimalValue ds) := by
  cases ds with
  | nil => simp [isDigitRun] at h
  | cons c ds =>
    simp only [isDigitRun, List.isEmpty_cons, Bool.not_false, Bool.true_and, List.all_cons,
      Bool.and_eq_true] at h
    simp only [readDigits, h.1, if_true, Option.getD_none, readDigits_some_of_all_digit _ ds h.2,
      decimalValue_cons]
    congr 1
    ring

theorem isSpace_false_of_isDigit (c : Char) (h : isDigit c = true) : isSpace c = false := by
  unfold isDigit at h
  unfold isSpace
  simp only [Bool.and_eq_true, decide_eq_true_eq] at h
  simp only [Bool.or_eq_false_iff, beq_eq_false_iff_ne, ne_eq, Bool.and_eq_false_imp,
    decide_eq_true_eq, decide_eq_false_iff_not]
  omega

theorem isDigitRun_no_space (ds : Str) (h : isDigitRun ds = true) :
    ∀ c ∈ ds, isSpace c = false := by
  intro c hc
  simp only [isDigitRun, Bool.and_eq_true, List.all_eq_true] at h
  exact isSpace_false_of_isDigit c (h.2 c hc)

theorem isIntLiteral_no_space (t : Str) (h : isIntLiteral t = true) :
    t ≠ [] ∧ ∀ c ∈ t, isSpace c = false := by
  cases t with
  | nil => simp [isIntLiteral] at h
  | cons c rest =>
    refine ⟨by simp, ?_⟩
    simp only [isIntLiteral] at h
    split at h
    · rename_i hsign
      intro d hd
      rcases List.mem_cons.mp hd with hd | hd
      · rcases hsign with hsign | hsign
        · rw [hd, hsign]; decide
        · rw [hd, hsign]; decide
      · exact isDigitRun_no_space rest h d hd
    · exact isDigitRun_no_space (c :: rest) h

theorem readSigned_of_isIntLiteral (t : Str) (h : isIntLiteral t = true) :
    readSigned t = some (literalValue t) := by
  cases t with
  | nil => simp [isIntLiteral] at h
  | cons c rest =>
    simp only [isIntLiteral] at h
    simp only [readSigned, literalValue]
    by_cases h1 : c = '-'
    · simp only [h1, true_or, if_true] at h ⊢
      simp [readDigits_none_of_isDigitRun rest h]
    · by_cases h2 : c = '+'
      · simp only [h2, or_true, if_true] at h ⊢
        simp [readDigits_none_of_isDigitRun rest h]
      · simp only [h1, h2, or_self, if_false] at h ⊢
        simp [readDigits_none_of_isDigitRun (c :: rest) h]

theorem stoi_of_isIntLiteral (t : Str) (h : isIntLiteral t = true)
    (hfit : fitsInt32 (literalValue t)) : stoi t = some (literalValue t) := by
  unfold stoi
  rw [dropWhile_isSpace_of_no_space t (isIntLiteral_no_space t h).2,
    readSigned_of_isIntLiteral t h]
  simp [hfit]

/-- C10: a line made of two base-10 integer literals, each denoting a 32-bit
signed value, separated by one or more whitespace characters, is parsed
successfully to the pair of the two denoted integers, the first literal's value
first and the second literal's value second. -/
theorem parseLine_of_two_literals (first ws second : Str)
    (hfirst : isIntLiteral first = true) (hsecond : isIntLiteral second = true)
    (hws : ws ≠ [] ∧ ∀ c ∈ ws, isSpace c = true)
    (hfit1 : fitsInt32 (literalValue first)) (hfit2 : fitsInt32 (literalValue second)) :
    parseLine (first ++ ws ++ second) = .ok (literalValue first, literalValue second) := by
  have htok := tokenize_two first ws second (isIntLiteral_no_space first hfirst) hws
    (isIntLiteral_no_space second hsecond)
  unfold parseLine
  simp only [htok, stoi_of_isIntLiteral first hfirst hfit1,
    stoi_of_isIntLiteral second hsecond hfit2]

/-- Witness of C10: `"-17"` and `"+2147483647"` separated by a tab and two
spaces. -/
theorem parseLine_of_two_literals_witness :
    parseLine ("-17".toList ++ "\t  ".toList ++ "+2147483647".toList)
      = .ok (literalValue "-17".toList, literalValue "+2147483647".toList) ∧
    literalValue "-17".toList = -17 ∧ literalValue "+2147483647".toList = 2147483647 :=
  ⟨parseLine_of_two_literals "-17".toList "\t  ".toList "+2147483647".toList
    (by decide) (by decide) ⟨by decide, by decide⟩ (by decide) (by decide),
   by decide, by decide⟩

/-! ## The tokenizer -/

theorem wordsSpec_of_no_space (t : Str) (ht : ∀ c ∈ t, isSpace c = false) :
    wordsSpec t = if t.isEmpty then [] else [t] := by
  unfold wordsSpec
  rw [List.splitOnP_eq_single isSpace t (fun x hx => by simp [ht x hx])]
  cases t <;> simp

theorem wordsSpec_append_space (t rest : Str) (c : Char)
    (ht : ∀ d ∈ t, isSpace d = false) (hc : isSpace c = true) :
    wordsSpec (t ++ c :: rest) = (if t.isEmpty then [] else [t]) ++ wordsSpec rest := by
  unfold wordsSpec
  rw [List.splitOnP_first isSpace t (fun x hx => by simp [ht x hx]) c hc rest]
  cases t <;> simp

theorem tokenizeFrom_eq_wordsSpec (inSep : Bool) (cur s : Str)
    (hcur : ∀ c ∈ cur, isSpace c = false) (hsep : inSep = true → cur = []) :
    tokenizeFrom inSep cur s
      = (if inSep = false ∧ cur = [] ∧ startsWithSpace s = true then [[]] else [])
        ++ wordsSpec (cur ++ s) := by
  induction s generalizing inSep cur with
  | nil =>
    simp only [tokenizeFrom, startsWithSpace, Bool.false_eq_true, and_false, if_false,
      List.nil_append, List.append_nil]
    exact (wordsSpec_of_no_space cur hcur).symm
  | cons c rest ih =>
    by_cases hc : isSpace c = true
    · have hrest := ih true [] (by simp) (fun _ => rfl)
      simp only [Bool.true_eq_false, false_and, if_false, List.nil_append] at hrest
      simp only [tokenizeFrom, hc, if_true, startsWithSpace, and_true,
        wordsSpec_append_space cur rest c hcur hc, hrest]
      cases inSep with
      | true =>
        simp [hsep rfl]
      | false =>
        cases cur <;> simp
    · have hc2 : isSpace c = false := by simpa using hc
      have hrest := ih false (cur ++ [c]) (by
        intro d hd
        rcases List.mem_append.mp hd with h | h
        · exact hcur d h
        · rw [List.mem_singleton.mp h]; exact hc2) (by simp)
      simp only [List.append_eq_nil, List.cons_ne_nil, and_false, false_and, if_false,
        List.nil_append, List.append_assoc, List.singleton_append] at hrest
      simp only [tokenizeFrom, hc2, Bool.false_eq_true, if_false, startsWithSpace, and_false,
        List.nil_append, hrest]

theorem tokenize_eq_wordsSpec (line : Str) :
    tokenize line = (if startsWithSpace line = true then [[]] else []) ++ wordsSpec line := by
  cases line with
  | nil => simp [tokenize, startsWithSpace, wordsSpec]
  | cons c rest =>
    have := tokenizeFrom_eq_wordsSpec false [] (c :: rest) (by simp) (by simp)
    simpa [tokenize] using this

/-- C11: what `tokenize` returns on a line that begins with whitespace. The line
`" 3   4"` yields the three tokens `""`, `"3"`, `"4"`, the first of them empty,
while its maximal whitespace-free substrings are `"3"` and `"4"`; the line
parser then counts three entries. A line of spaces only yields the single
empty token. In general `tokenize` returns the maximal whitespace-free
substrings in order, with one empty token in front of them exactly when the
line begins with whitespace; whitespace at the end adds nothing. -/
theorem tokenize_leading_whitespace :
    (tokenize " 3   4".toList = ["".toList, "3".toList, "4".toList] ∧
      wordsSpec " 3   4".toList = ["3".toList, "4".toList] ∧
      parseLine " 3   4".toList = .error (.format 3)) ∧
    tokenize "   ".toList = ["".toList] ∧
    tokenize "3   4  ".toList = ["3".toList, "4".toList] ∧
    (∀ line : Str, tokenize line
      = (if startsWithSpace line = true then [[]] else []) ++ wordsSpec line) := by
  refine ⟨by decide, by decide, by decide, tokenize_eq_wordsSpec⟩

/-- C12: `tokenize` of the empty string is the empty sequence, not a sequence
holding one empty token, and `tokenize` returns a sequence of tokens on every
line (it has no failure path). -/
theorem tokenize_empty :
    tokenize "".toList = [] ∧ tokenize "".toList ≠ ["".toList] ∧
    (∀ line : Str, ∃ tokens : List Str, tokenize line = tokens) := by
  refine ⟨by decide, by decide, fun line => ⟨tokenize line, rfl⟩⟩

/-! ## Algebra of the distance reducer -/

theorem sorted_sort (v : Locations) : (sort v).Sorted (fun a b => a ≤ b) := by
  unfold sort
  exact List.sorted_insertionSort _ v

theorem perm_sort (v : Locations) : (sort v).Perm v := by
  unfold sort
  exact List.perm_insertionSort _ v

theorem sort_eq_of_perm {v w : Locations} (h : v.Perm w) : sort v = sort w :=
  sort_eq_of_sorted_perm (sorted_sort w) ((perm_sort w).trans h.symm)

theorem computeDistanceSum_of_perm (A : IntArith) {left left2 right right2 : Locations}
    (hl : left2.Perm left) (hr : right2.Perm right) :
    computeDistanceSum A left2 right2 = computeDistanceSum A left right := by
  unfold computeDistanceSum
  rw [sort_eq_of_perm hl, sort_eq_of_perm hr]

theorem toInt32_abs_sub_comm (l r : Int) :
    toInt32 (intAbs (toInt32 (l - r))) = toInt32 (intAbs (toInt32 (r - l))) := by
  unfold toInt32 intAbs
  split_ifs <;> omega

theorem intAbs_sub_comm (l r : Int) : intAbs (l - r) = intAbs (r - l) := by
  unfold intAbs
  split_ifs <;> omega

theorem computeDistanceSum_result_comm (A : IntArith)
    (hA : ∀ l r, A.store (intAbs (A.store (l - r))) = A.store (intAbs (A.store (r - l))))
    (left right : Locations) (hlen : left.length = right.length) :
    (computeDistanceSum A left right).result = (computeDistanceSum A right left).result := by
  unfold computeDistanceSum
  simp only [length_sort, hlen, ne_eq, not_true_eq_false, if_false]
  rw [List.zipWith_comm]
  simp only [hA]

/-- C13: for lists of equal length, `computeDistanceSum(L, R)` and
`computeDistanceSum(R, L)` return the same value, on 32-bit `int` and in exact
integer arithmetic. -/
theorem computeDistanceSum_symmetric (left right : Locations)
    (hlen : left.length = right.length) :
    (computeDistanceSum int32 left right).result
      = (computeDistanceSum int32 right left).result ∧
    (computeDistanceSum exactInt left right).result
      = (computeDistanceSum exactInt right left).result :=
  ⟨computeDistanceSum_result_comm int32 toInt32_abs_sub_comm left right hlen,
   computeDistanceSum_result_comm exactInt intAbs_sub_comm left right hlen⟩

/-- Witness of C13 on the example lists. -/
theorem computeDistanceSum_symmetric_witness :
    (computeDistanceSum int32 [3, 4, 2, 1, 3, 3] [4, 3, 5, 3, 9, 3]).result
      = (computeDistanceSum int32 [4, 3, 5, 3, 9, 3] [3, 4, 2, 1, 3, 3]).result ∧
    (computeDistanceSum exactInt [3, 4, 2, 1, 3, 3] [4, 3, 5, 3, 9, 3]).result
      = (computeDistanceSum exactInt [4, 3, 5, 3, 9, 3] [3, 4, 2, 1, 3, 3]).result :=
  computeDistanceSum_symmetric [3, 4, 2, 1, 3, 3] [4, 3, 5, 3, 9, 3] (by decide)

/-- C14: sorting the inputs beforehand does not change the result: for lists
of equal length and any ascending sorted permutations `sortedLeft` of `left`
and `sortedRight` of `right`, `computeDistanceSum(sortedLeft, sortedRight)`
returns what `computeDistanceSum(left, right)` returns, whatever the
arithmetic of `int` is. -/
theorem computeDistanceSum_presorted (A : IntArith)
    (left right sortedLeft sortedRight : Locations)
    (hlen : left.length = right.length)
    (hl : sortedLeft.Sorted (fun a b => a ≤ b) ∧ sortedLeft.Perm left)
    (hr : sortedRight.Sorted (fun a b => a ≤ b) ∧ sortedRight.Perm right) :
    (computeDistanceSum A left right).result
      = (computeDistanceSum A sortedLeft sortedRight).result ∧
    ∃ n, (computeDistanceSum A left right).result = .ok n := by
  constructor
  · rw [computeDistanceSum_of_perm A hl.2 hr.2]
  · unfold computeDistanceSum
    simp [length_sort, hlen]

/-- Witness of C14 on the example lists. -/
theorem computeDistanceSum_presorted_witness :
    (computeDistanceSum int32 [3, 4, 2, 1, 3, 3] [4, 3, 5, 3, 9, 3]).result
      = (computeDistanceSum int32 [1, 2, 3, 3, 3, 4] [3, 3, 3, 4, 5, 9]).result ∧
    ∃ n, (computeDistanceSum int32 [3, 4, 2, 1, 3, 3] [4, 3, 5, 3, 9, 3]).result = .ok n :=
  computeDistanceSum_presorted int32 [3, 4, 2, 1, 3, 3] [4, 3, 5, 3, 9, 3]
    [1, 2, 3, 3, 3, 4] [3, 3, 3, 4, 5, 9] (by decide) (by decide) (by decide)

/-- C15, as it is stated, fails: there are no lists `L`, `R` of equal length
with permutations `L2` of `L` and `R2` of `R` on which `computeDistanceSum`
returns different values, because the function sorts both arguments before
pairing them. -/
theorem computeDistanceSum_no_perm_variance :
    ¬ ∃ (A : IntArith) (L R L2 R2 : Locations), L.length = R.length ∧
      L2.Perm L ∧ R2.Perm R ∧
      (computeDistanceSum A L R).result ≠ (computeDistanceSum A L2 R2).result := by
  rintro ⟨A, L, R, L2, R2, _, hL, hR, hne⟩
  exact hne (by rw [computeDistanceSum_of_perm A hL hR])

/-- C15 (amended): the distance is invariant under permutation: for lists `L`
and `R` of equal length, every permutation `L2` of `L` and every permutation
`R2` of `R`, `computeDistanceSum(L2, R2)` returns the same number as
`computeDistanceSum(L, R)`. -/
theorem computeDistanceSum_perm_invariant (A : IntArith) (L R L2 R2 : Locations)
    (hlen : L.length = R.length) (hL : L2.Perm L) (hR : R2.Perm R) :
    ∃ n, (computeDistanceSum A L R).result = .ok n ∧
      (computeDistanceSum A L2 R2).result = .ok n := by
  rw [computeDistanceSum_of_perm A hL hR]
  unfold computeDistanceSum
  simp [length_sort, hlen]

/-- Witness of C15 (amended): the rows of the example in another order. -/
theorem computeDistanceSum_perm_invariant_witness :
    ∃ n, (computeDistanceSum int32 [3, 4, 2, 1, 3, 3] [4, 3, 5, 3, 9, 3]).result = .ok n ∧
      (computeDistanceSum int32 [1, 3, 3, 4, 3, 2] [9, 3, 3, 5, 4, 3]).result = .ok n :=
  computeDistanceSum_perm_invariant int32 [3, 4, 2, 1, 3, 3] [4, 3, 5, 3, 9, 3]
    [1, 3, 3, 4, 3, 2] [9, 3, 3, 5, 4, 3] (by decide) (by decide) (by decide)

/-! ## Algebra of the similarity reducer -/

theorem computeSimilarityScore_zero_of_disjoint (A : IntArith) (hA : A.store 0 = 0)
    (left right : Locations) (h : ∀ v ∈ left, v ∉ right) :
    computeSimilarityScore A left right = 0 := by
  unfold computeSimilarityScore
  have hmap : left.map (fun locationId => A.store (locationId * (right.count locationId : Int)))
      = left.map (fun _ => (0 : Int)) := by
    apply List.map_congr_left
    intro v hv
    simp [List.count_eq_zero_of_not_mem (h v hv), hA]
  rw [hmap]
  clear hmap h
  induction left with
  | nil => rfl
  | cons v rest ih => simpa [hA] using ih

theorem toInt32_zero : toInt32 0 = 0 := by decide

/-- C16: when no element of `L` occurs in `R`, `computeSimilarityScore(L, R)`
is 0, on 32-bit `int` and in exact integer arithmetic; in particular
`computeSimilarityScore(L, [])` is 0 for every `L`. -/
theorem computeSimilarityScore_disjoint (L R : Locations) :
    ((∀ v ∈ L, v ∉ R) →
      computeSimilarityScore int32 L R = 0 ∧ computeSimilarityScore exactInt L R = 0) ∧
    computeSimilarityScore int32 L [] = 0 ∧ computeSimilarityScore exactInt L [] = 0 := by
  refine ⟨fun h => ⟨?_, ?_⟩, ?_, ?_⟩
  · exact computeSimilarityScore_zero_of_disjoint int32 toInt32_zero L R h
  · exact computeSimilarityScore_zero_of_disjoint exactInt rfl L R h
  · exact computeSimilarityScore_zero_of_disjoint int32 toInt32_zero L [] (by simp)
  · exact computeSimilarityScore_zero_of_disjoint exactInt rfl L [] (by simp)

/-- Witness of C16: the left values `1, 2, 2` do not occur among `3, 4, 5`. -/
theorem computeSimilarityScore_disjoint_witness :
    computeSimilarityScore int32 [1, 2, 2] [3, 4, 5] = 0 ∧
    computeSimilarityScore exactInt [1, 2, 2] [3, 4, 5] = 0 :=
  (computeSimilarityScore_disjoint [1, 2, 2] [3, 4, 5]).1 (by decide)

theorem toInt32_add_toInt32 (a b : Int) : toInt32 (toInt32 a + toInt32 b) = toInt32 (a + b) := by
  unfold toInt32
  omega

theorem foldl_toInt32_eq (f : Int → Int) (l : List Int) (a : Int) :
    (l.map (fun v => toInt32 (f v))).foldl (fun acc s => toInt32 (acc + s)) (toInt32 a)
      = toInt32 (a + (l.map f).sum) := by
  induction l generalizing a with
  | nil => simp
  | cons v rest ih =>
    simp only [List.map_cons, List.foldl_cons, List.sum_cons, toInt32_add_toInt32]
    rw [ih (a + f v), add_assoc]

theorem computeSimilarityScore_int32_eq (left right : Locations) :
    computeSimilarityScore int32 left right = toInt32 (similaritySpec left right) := by
  unfold computeSimilarityScore similaritySpec
  have := foldl_toInt32_eq (fun v => v * (right.count v : Int)) left 0
  simpa [int32, toInt32_zero] using this

theorem computeSimilarityScore_exactInt_eq (left right : Locations) :
    computeSimilarityScore exactInt left right = similaritySpec left right := by
  unfold computeSimilarityScore similaritySpec
  simp only [exactInt]
  rw [foldl_add_eq_sum, zero_add]

theorem similaritySpec_of_perm {left left2 right right2 : Locations}
    (hl : left2.Perm left) (hr : right2.Perm right) :
    similaritySpec left2 right2 = similaritySpec left right := by
  unfold similaritySpec
  have hcount : (fun v : Int => v * (right2.count v : Int))
      = (fun v : Int => v * (right.count v : Int)) := by
    funext v
    rw [hr.count_eq]
  rw [hcount]
  exact (hl.map _).sum_eq

theorem computeDistanceSum_left (A : IntArith) (left right : Locations) :
    (computeDistanceSum A left right).left = sort left := by
  by_cases h : (sort left).length = (sort right).length <;> simp [computeDistanceSum, h]

theorem computeDistanceSum_right (A : IntArith) (left right : Locations) :
    (computeDistanceSum A left right).right = sort right := by
  by_cases h : (sort left).length = (sort right).length <;> simp [computeDistanceSum, h]

/-- C17: `computeSimilarityScore` does not depend on the order of either
list: for every permutation `L2` of `L` and `R2` of `R`,
`computeSimilarityScore(L2, R2)` equals `computeSimilarityScore(L, R)`, on
32-bit `int` (overflow wrapping around) and in exact integer arithmetic. Hence
the score computed on the two vectors as `computeDistanceSum` leaves them
(sorted in place) equals the score of the lists as loaded. -/
theorem computeSimilarityScore_perm (L R L2 R2 : Locations)
    (hL : L2.Perm L) (hR : R2.Perm R) :
    computeSimilarityScore int32 L2 R2 = computeSimilarityScore int32 L R ∧
    computeSimilarityScore exactInt L2 R2 = computeSimilarityScore exactInt L R ∧
    computeSimilarityScore int32 (computeDistanceSum int32 L R).left
        (computeDistanceSum int32 L R).right
      = computeSimilarityScore int32 L R := by
  refine ⟨?_, ?_, ?_⟩
  · rw [computeSimilarityScore_int32_eq, computeSimilarityScore_int32_eq,
      similaritySpec_of_perm hL hR]
  · rw [computeSimilarityScore_exactInt_eq, computeSimilarityScore_exactInt_eq,
      similaritySpec_of_perm hL hR]
  · rw [computeDistanceSum_left, computeDistanceSum_right, computeSimilarityScore_int32_eq, computeSimilarityScore_int32_eq,
      similaritySpec_of_perm (perm_sort L) (perm_sort R)]

/-- Witness of C17 on the example lists and their sorted order. -/
theorem computeSimilarityScore_perm_witness :
    computeSimilarityScore int32 [1, 2, 3, 3, 3, 4] [3, 3, 3, 4, 5, 9]
      = computeSimilarityScore int32 [3, 4, 2, 1, 3, 3] [4, 3, 5, 3, 9, 3] ∧
    computeSimilarityScore exactInt [1, 2, 3, 3, 3, 4] [3, 3, 3, 4, 5, 9]
      = computeSimilarityScore exactInt [3, 4, 2, 1, 3, 3] [4, 3, 5, 3, 9, 3] ∧
    computeSimilarityScore int32
        (computeDistanceSum int32 [3, 4, 2, 1, 3, 3] [4, 3, 5, 3, 9, 3]).left
        (computeDistanceSum int32 [3, 4, 2, 1, 3, 3] [4, 3, 5, 3, 9, 3]).right
      = computeSimilarityScore int32 [3, 4, 2, 1, 3, 3] [4, 3, 5, 3, 9, 3] :=
  computeSimilarityScore_perm [3, 4, 2, 1, 3, 3] [4, 3, 5, 3, 9, 3]
    [1, 2, 3, 3, 3, 4] [3, 3, 3, 4, 5, 9] (by decide) (by decide)

/-! ## Effect of the distance reducer on its arguments -/

/-- C18: after a call of `computeDistanceSum`, whatever the lengths and
whatever the arithmetic, each vector is the ascending sorted permutation of
its own input: non-decreasing, with the same values counted with multiplicity,
and of the same length. This holds on the failing path too: the call on
`[2, 1]` and `[3]` throws the length-mismatch error and leaves `[1, 2]` and
`[3]`. -/
theorem computeDistanceSum_sorts_in_place (A : IntArith) (left right : Locations) :
    ((computeDistanceSum A left right).left.Sorted (fun a b => a ≤ b) ∧
      (computeDistanceSum A left right).left.Perm left ∧
      (computeDistanceSum A left right).left.length = left.length) ∧
    ((computeDistanceSum A left right).right.Sorted (fun a b => a ≤ b) ∧
      (computeDistanceSum A left right).right.Perm right ∧
      (computeDistanceSum A left right).right.length = right.length) ∧
    computeDistanceSum int32 [2, 1] [3] = ⟨[1, 2], [3], .error (.lengthMismatch 2 1)⟩ := by
  rw [computeDistanceSum_left, computeDistanceSum_right]
  exact ⟨⟨sorted_sort left, perm_sort left, length_sort left⟩,
    ⟨sorted_sort right, perm_sort right, length_sort right⟩, by decide⟩

/-! ## The distance reducer on 32-bit `int` -/

theorem distanceSpec_eq_zipWith_sum (a b : Locations) (h : a.length = b.length) :
    distanceSpec a b = (List.zipWith (fun l r => intAbs (l - r)) a b).sum := by
  unfold distanceSpec
  rw [zipWith_sum_eq_range _ a b h]
  simp [intAbs_eq_abs]

theorem computeDistanceSum_exactInt_result (left right : Locations)
    (hlen : left.length = right.length) :
    (computeDistanceSum exactInt left right).result
      = .ok (distanceSpec (sort left) (sort right)) := by
  have hlen2 : (sort left).length = (sort right).length := by
    rw [length_sort, length_sort, hlen]
  rw [distanceSpec_eq_zipWith_sum _ _ hlen2]
  unfold computeDistanceSum
  simp only [hlen2, ne_eq, not_true_eq_false, if_false, exactInt]
  rw [foldl_add_eq_sum, zero_add]

theorem toInt32_abs_sub_of_bounds {lo hi l r : Int} (hD : hi - lo ≤ 2147483647)
    (hl : lo ≤ l ∧ l ≤ hi) (hr : lo ≤ r ∧ r ≤ hi) :
    fitsInt32 (l - r) ∧ fitsInt32 (intAbs (l - r)) ∧
    toInt32 (intAbs (toInt32 (l - r))) = intAbs (l - r) ∧
    0 ≤ intAbs (l - r) ∧ intAbs (l - r) ≤ hi - lo := by
  unfold fitsInt32 toInt32 intAbs
  split_ifs <;> omega

theorem zipWith_int32_eq {lo hi : Int} (hD : hi - lo ≤ 2147483647) (a b : Locations)
    (ha : ∀ v ∈ a, lo ≤ v ∧ v ≤ hi) (hb : ∀ v ∈ b, lo ≤ v ∧ v ≤ hi) :
    List.zipWith (fun l r => toInt32 (intAbs (toInt32 (l - r)))) a b
      = List.zipWith (fun l r => intAbs (l - r)) a b := by
  induction a generalizing b with
  | nil => simp
  | cons x xs ih =>
    cases b with
    | nil => simp
    | cons y ys =>
      simp only [List.zipWith_cons_cons, List.cons.injEq]
      exact ⟨(toInt32_abs_sub_of_bounds hD (ha x (by simp)) (hb y (by simp))).2.2.1,
        ih ys (fun v hv => ha v (List.mem_cons_of_mem _ hv))
          (fun v hv => hb v (List.mem_cons_of_mem _ hv))⟩

theorem zipWith_abs_bounds {lo hi : Int} (hD : hi - lo ≤ 2147483647) (a b : Locations)
    (ha : ∀ v ∈ a, lo ≤ v ∧ v ≤ hi) (hb : ∀ v ∈ b, lo ≤ v ∧ v ≤ hi) :
    ∀ d ∈ List.zipWith (fun l r => intAbs (l - r)) a b, 0 ≤ d ∧ d ≤ hi - lo := by
  induction a generalizing b with
  | nil => simp
  | cons x xs ih =>
    cases b with
    | nil => simp
    | cons y ys =>
      intro d hd
      simp only [List.zipWith_cons_cons, List.mem_cons] at hd
      rcases hd with hd | hd
      · rw [hd]
        exact (toInt32_abs_sub_of_bounds hD (ha x (by simp)) (hb y (by simp))).2.2.2
      · exact ih ys (fun v hv => ha v (List.mem_cons_of_mem _ hv))
          (fun v hv => hb v (List.mem_cons_of_mem _ hv)) d hd

theorem sum_bounds_of_bounded (D : Int) (ds : List Int) (h : ∀ d ∈ ds, 0 ≤ d ∧ d ≤ D) :
    0 ≤ ds.sum ∧ ds.sum ≤ (ds.length : Int) * D := by
  induction ds with
  | nil => simp
  | cons d rest ih =>
    have hd := h d (by simp)
    have hrest := ih (fun x hx => h x (List.mem_cons_of_mem _ hx))
    simp only [List.sum_cons, List.length_cons, Nat.cast_add, Nat.cast_one]
    constructor
    · omega
    · have : ((rest.length : Int) + 1) * D = (rest.length : Int) * D + D := by ring
      omega

theorem foldl_toInt32_of_fits (ds : List Int) (acc : Int) (hds : ∀ d ∈ ds, 0 ≤ d)
    (hacc : 0 ≤ acc) (hsum : acc + ds.sum ≤ 2147483647) :
    ds.foldl (fun a d => toInt32 (a + d)) acc = acc + ds.sum := by
  induction ds generalizing acc with
  | nil => simp
  | cons d rest ih =>
    have hd := hds d (by simp)
    have hrest : 0 ≤ rest.sum := List.sum_nonneg (fun x hx => hds x (List.mem_cons_of_mem _ hx))
    simp only [List.sum_cons] at hsum
    have hfit : toInt32 (acc + d) = acc + d := toInt32_of_fits ⟨by omega, by omega⟩
    simp only [List.foldl_cons, List.sum_cons, hfit]
    rw [ih (acc + d) (fun x hx => hds x (List.mem_cons_of_mem _ hx)) (by omega) (by omega)]
    ring

theorem zipWith_abs_sum_fits {lo hi : Int} (n : Nat) (hD0 : 0 ≤ hi - lo)
    (hn : (n : Int) * (hi - lo) ≤ 2147483647) (hD : hi - lo ≤ 2147483647) (a b : Locations)
    (hlen : a.length ≤ n)
    (ha : ∀ v ∈ a, lo ≤ v ∧ v ≤ hi) (hb : ∀ v ∈ b, lo ≤ v ∧ v ≤ hi) :
    0 ≤ (List.zipWith (fun l r => intAbs (l - r)) a b).sum ∧
    (List.zipWith (fun l r => intAbs (l - r)) a b).sum ≤ 2147483647 := by
  have hb := sum_bounds_of_bounded (hi - lo) _ (zipWith_abs_bounds hD a b ha hb)
  refine ⟨hb.1, le_trans hb.2 (le_trans ?_ hn)⟩
  apply mul_le_mul_of_nonneg_right _ hD0
  have : (List.zipWith (fun l r => intAbs (l - r)) a b).length ≤ n := by
    rw [List.length_zipWith]
    omega
  exact_mod_cast this

/-- C19: for lists `L`, `R` of equal length `n` whose values all lie in
`[lo, hi]`, with `lo` and `hi` 32-bit signed values and
`n * (hi - lo) ≤ 2^31 - 1`, the 32-bit run of `computeDistanceSum` never
overflows: all inputs are `int` values, each difference of paired values and
each absolute value fits, every partial sum of the absolute differences fits,
and the returned `int` is the exact distance sum, the value computed in exact
integer arithmetic. -/
theorem computeDistanceSum_int32_exact (L R : Locations) (lo hi : Int)
    (hlen : L.length = R.length)
    (hL : ∀ v ∈ L, lo ≤ v ∧ v ≤ hi) (hR : ∀ v ∈ R, lo ≤ v ∧ v ≤ hi)
    (hlo : fitsInt32 lo) (hhi : fitsInt32 hi)
    (hn : (L.length : Int) * (hi - lo) ≤ 2147483647) :
    ((∀ v ∈ L, fitsInt32 v) ∧ (∀ v ∈ R, fitsInt32 v)) ∧
    (∀ p ∈ List.zip (sort L) (sort R),
      fitsInt32 (p.1 - p.2) ∧ fitsInt32 (intAbs (p.1 - p.2))) ∧
    (∀ k, k ≤ L.length →
      fitsInt32 (distanceSpec ((sort L).take k) ((sort R).take k))) ∧
    (computeDistanceSum int32 L R).result = .ok (distanceSpec (sort L) (sort R)) ∧
    (computeDistanceSum int32 L R).result = (computeDistanceSum exactInt L R).result := by
  have hfitL : ∀ v ∈ L, fitsInt32 v := fun v hv => by
    have := hL v hv
    unfold fitsInt32 at *
    omega
  have hfitR : ∀ v ∈ R, fitsInt32 v := fun v hv => by
    have := hR v hv
    unfold fitsInt32 at *
    omega
  have hlen2 : (sort L).length = (sort R).length := by
    rw [length_sort, length_sort, hlen]
  refine ⟨⟨hfitL, hfitR⟩, ?_⟩
  cases L with
  | nil =>
    have hR0 : R = [] := List.length_eq_zero.mp hlen.symm
    subst hR0
    refine ⟨by simp [sort], fun k _ => by simp [sort, distanceSpec, fitsInt32], ?_, ?_⟩ <;>
      simp [computeDistanceSum, sort, distanceSpec]
  | cons x xs =>
    have hx := hL x (by simp)
    have hD0 : 0 ≤ hi - lo := by omega
    have hD : hi - lo ≤ 2147483647 := by
      have h1 : (1 : Int) ≤ ((x :: xs).length : Int) := by simp
      exact le_trans (le_mul_of_one_le_left hD0 h1) hn
    have hsl : ∀ v ∈ sort (x :: xs), lo ≤ v ∧ v ≤ hi :=
      fun v hv => hL v ((perm_sort _).mem_iff.mp hv)
    have hsr : ∀ v ∈ sort R, lo ≤ v ∧ v ≤ hi :=
      fun v hv => hR v ((perm_sort _).mem_iff.mp hv)
    have htotal := zipWith_abs_sum_fits (x :: xs).length hD0 hn hD (sort (x :: xs)) (sort R)
      (by rw [length_sort]) hsl hsr
    have h32 : (computeDistanceSum int32 (x :: xs) R).result
        = .ok (distanceSpec (sort (x :: xs)) (sort R)) := by
      rw [distanceSpec_eq_zipWith_sum _ _ hlen2]
      unfold computeDistanceSum
      simp only [hlen2, ne_eq, not_true_eq_false, if_false, int32]
      rw [zipWith_int32_eq hD _ _ hsl hsr,
        foldl_toInt32_of_fits _ 0 (fun d hd => (zipWith_abs_bounds hD _ _ hsl hsr d hd).1)
          (le_refl 0) (by omega), zero_add]
    refine ⟨?_, ?_, h32, ?_⟩
    · intro p hp
      obtain ⟨a, b⟩ := p
      have hab := List.of_mem_zip hp
      have := toInt32_abs_sub_of_bounds hD (hsl a hab.1) (hsr b hab.2)
      exact ⟨this.1, this.2.1⟩
    · intro k hk
      have hlenk : ((sort (x :: xs)).take k).length = ((sort R).take k).length := by
        simp [List.length_take, hlen2]
      rw [distanceSpec_eq_zipWith_sum _ _ hlenk]
      have := zipWith_abs_sum_fits (x :: xs).length hD0 hn hD
        ((sort (x :: xs)).take k) ((sort R).take k)
        (by rw [List.length_take, length_sort]; omega)
        (fun v hv => hsl v (List.mem_of_mem_take hv))
        (fun v hv => hsr v (List.mem_of_mem_take hv))
      unfold fitsInt32
      omega
    · rw [h32, computeDistanceSum_exactInt_result _ _ hlen]

/-- Witness of C19: the example lists, six values each in `[0, 99999]`. -/
theorem computeDistanceSum_int32_exact_witness :
    (computeDistanceSum int32 [3, 4, 2, 1, 3, 3] [4, 3, 5, 3, 9, 3]).result
      = (computeDistanceSum exactInt [3, 4, 2, 1, 3, 3] [4, 3, 5, 3, 9, 3]).result :=
  (computeDistanceSum_int32_exact [3, 4, 2, 1, 3, 3] [4, 3, 5, 3, 9, 3] 0 99999
    (by decide) (by decide) (by decide) (by decide) (by decide) (by decide)).2.2.2.2

/-! ## Optimality of the sorted pairing -/

theorem intAbs_uncross {x a y b : Int} (hxa : x ≤ a) (hby : b ≤ y) :
    intAbs (x - b) + intAbs (a - y) ≤ intAbs (x - y) + intAbs (a - b) := by
  unfold intAbs
  split_ifs <;> omega

theorem zipWith_abs_comm (a b : Locations) :
    List.zipWith (fun l r => intAbs (l - r)) a b
      = List.zipWith (fun l r => intAbs (l - r)) b a := by
  rw [List.zipWith_comm]
  simp only [intAbs_sub_comm]

theorem insert_right_le (b a : Locations) (x y : Int) (hlen : a.length = b.length)
    (hx : ∀ z ∈ a, x ≤ z) (ha : a.Sorted (fun p q => p ≤ q)) :
    (List.zipWith (fun l r => intAbs (l - r)) (x :: a)
        (b.orderedInsert (fun p q => p ≤ q) y)).sum
      ≤ intAbs (x - y) + (List.zipWith (fun l r => intAbs (l - r)) a b).sum := by
  induction b generalizing a x with
  | nil =>
    have ha0 : a = [] := List.length_eq_zero.mp hlen
    subst ha0
    simp
  | cons b1 bt ih =>
    cases a with
    | nil => simp at hlen
    | cons a1 at2 =>
      simp only [List.length_cons, Nat.succ.injEq, add_left_inj] at hlen
      by_cases hy : y ≤ b1
      · simp [List.orderedInsert, hy]
      · have hsorted := List.sorted_cons.mp ha
        have hrec := ih at2 a1 hlen hsorted.1 hsorted.2
        have hun := intAbs_uncross (hx a1 (by simp)) (le_of_lt (not_le.mp hy))
        simp only [List.orderedInsert, hy, if_false, List.zipWith_cons_cons, List.sum_cons]
          at hrec ⊢
        omega

theorem insert_both_le (a b : Locations) (x y : Int) (hlen : a.length = b.length)
    (ha : a.Sorted (fun p q => p ≤ q)) (hb : b.Sorted (fun p q => p ≤ q)) :
    (List.zipWith (fun l r => intAbs (l - r)) (a.orderedInsert (fun p q => p ≤ q) x)
        (b.orderedInsert (fun p q => p ≤ q) y)).sum
      ≤ intAbs (x - y) + (List.zipWith (fun l r => intAbs (l - r)) a b).sum := by
  induction a generalizing b with
  | nil =>
    have hb0 : b = [] := List.length_eq_zero.mp hlen.symm
    subst hb0
    simp
  | cons a1 at2 ih =>
    cases b with
    | nil => simp at hlen
    | cons b1 bt =>
      have hsa := List.sorted_cons.mp ha
      have hsb := List.sorted_cons.mp hb
      by_cases hxa : x ≤ a1
      · have := insert_right_le (b1 :: bt) (a1 :: at2) x y hlen
          (fun z hz => by
            rcases List.mem_cons.mp hz with h | h
            · rw [h]; exact hxa
            · exact le_trans hxa (hsa.1 z h)) ha
        simpa [List.orderedInsert, hxa] using this
      · by_cases hyb : y ≤ b1
        · have := insert_right_le (a1 :: at2) (b1 :: bt) y x hlen.symm
            (fun z hz => by
              rcases List.mem_cons.mp hz with h | h
              · rw [h]; exact hyb
              · exact le_trans hyb (hsb.1 z h)) hb
          rw [zipWith_abs_comm, zipWith_abs_comm (b1 :: bt), intAbs_sub_comm y x] at this
          simpa [List.orderedInsert, hyb] using this
        · simp only [List.length_cons, Nat.succ.injEq, add_left_inj] at hlen
          have hrec := ih bt hlen hsa.2 hsb.2
          simp only [List.orderedInsert, hxa, hyb, if_false, List.zipWith_cons_cons,
            List.sum_cons] at hrec ⊢
          omega

theorem sorted_pairing_le (left right : Locations) (hlen : left.length = right.length) :
    (List.zipWith (fun l r => intAbs (l - r)) (sort left) (sort right)).sum
      ≤ (List.zipWith (fun l r => intAbs (l - r)) left right).sum := by
  induction left generalizing right with
  | nil => simp [sort]
  | cons x xs ih =>
    cases right with
    | nil => simp at hlen
    | cons y ys =>
      simp only [List.length_cons, Nat.succ.injEq, add_left_inj] at hlen
      have hrec := ih ys hlen
      have hins := insert_both_le (sort xs) (sort ys) x y
        (by rw [length_sort, length_sort, hlen]) (sorted_sort xs) (sorted_sort ys)
      simp only [sort, List.insertionSort, List.zipWith_cons_cons, List.sum_cons] at hrec hins ⊢
      omega

theorem toInt32_le_max (x : Int) : toInt32 x ≤ 2147483647 := by
  unfold toInt32
  omega

theorem foldl_toInt32_le_max (ds : List Int) (acc : Int) (hacc : acc ≤ 2147483647) :
    ds.foldl (fun a d => toInt32 (a + d)) acc ≤ 2147483647 := by
  induction ds generalizing acc with
  | nil => simpa using hacc
  | cons d rest ih => simpa using ih _ (toInt32_le_max _)

theorem intAbs_nonneg (x : Int) : 0 ≤ intAbs x := by
  unfold intAbs
  split_ifs <;> omega

theorem zipWith_abs_nonneg (a b : Locations) :
    ∀ d ∈ List.zipWith (fun l r => intAbs (l - r)) a b, 0 ≤ d := by
  induction a generalizing b with
  | nil => simp
  | cons x xs ih =>
    cases b with
    | nil => simp
    | cons y ys =>
      intro d hd
      simp only [List.zipWith_cons_cons, List.mem_cons] at hd
      rcases hd with hd | hd
      · rw [hd]; exact intAbs_nonneg _
      · exact ih ys d hd

theorem toInt32_abs_of_le {l r : Int} (h : intAbs (l - r) ≤ 2147483647) :
    toInt32 (intAbs (toInt32 (l - r))) = intAbs (l - r) := by
  unfold toInt32 intAbs at *
  split_ifs at h ⊢ <;> omega

theorem zipWith_int32_eq_of_sum_le (a b : Locations)
    (h : (List.zipWith (fun l r => intAbs (l - r)) a b).sum ≤ 2147483647) :
    List.zipWith (fun l r => toInt32 (intAbs (toInt32 (l - r)))) a b
      = List.zipWith (fun l r => intAbs (l - r)) a b := by
  induction a generalizing b with
  | nil => simp
  | cons x xs ih =>
    cases b with
    | nil => simp
    | cons y ys =>
      simp only [List.zipWith_cons_cons, List.sum_cons] at h
      have hrest : 0 ≤ (List.zipWith (fun l r => intAbs (l - r)) xs ys).sum :=
        List.sum_nonneg (zipWith_abs_nonneg xs ys)
      have hd := intAbs_nonneg (x - y)
      simp only [List.zipWith_cons_cons, List.cons.injEq]
      exact ⟨toInt32_abs_of_le (by omega), ih ys (by omega)⟩

theorem computeDistanceSum_int32_result (left right : Locations)
    (hlen : left.length = right.length) :
    ∃ d, (computeDistanceSum int32 left right).result = .ok d ∧
      d ≤ 2147483647 ∧ d ≤ distanceSpec (sort left) (sort right) ∧
      (distanceSpec (sort left) (sort right) ≤ 2147483647 →
        d = distanceSpec (sort left) (sort right)) := by
  have hlen2 : (sort left).length = (sort right).length := by
    rw [length_sort, length_sort, hlen]
  have hres : (computeDistanceSum int32 left right).result
      = .ok ((List.zipWith (fun l r => toInt32 (intAbs (toInt32 (l - r))))
          (sort left) (sort right)).foldl (fun acc d => toInt32 (acc + d)) 0) := by
    unfold computeDistanceSum
    simp only [hlen2, ne_eq, not_true_eq_false, if_false, int32]
  have hmax := foldl_toInt32_le_max
    (List.zipWith (fun l r => toInt32 (intAbs (toInt32 (l - r)))) (sort left) (sort right)) 0
    (by decide)
  have heq : distanceSpec (sort left) (sort right) ≤ 2147483647 →
      (List.zipWith (fun l r => toInt32 (intAbs (toInt32 (l - r))))
          (sort left) (sort right)).foldl (fun acc d => toInt32 (acc + d)) 0
        = distanceSpec (sort left) (sort right) := by
    intro h
    rw [distanceSpec_eq_zipWith_sum _ _ hlen2] at h ⊢
    rw [zipWith_int32_eq_of_sum_le _ _ h,
      foldl_toInt32_of_fits _ 0 (zipWith_abs_nonneg _ _) (le_refl 0) (by omega), zero_add]
  refine ⟨_, hres, hmax, ?_, heq⟩
  by_cases h : distanceSpec (sort left) (sort right) ≤ 2147483647
  · exact le_of_eq (heq h)
  · exact le_trans hmax (le_of_lt (not_le.mp h))

theorem sorted_distance_le_paired (L R R2 : Locations)
    (hlen : L.length = R.length) (hperm : R2.Perm R) :
    distanceSpec (sort L) (sort R) ≤ pairedDistance L R2 := by
  have hlen2 : L.length = R2.length := by rw [hlen, hperm.length_eq]
  have h := sorted_pairing_le L R2 hlen2
  rw [sort_eq_of_perm hperm,
    ← distanceSpec_eq_zipWith_sum _ _ (by rw [length_sort, length_sort, hlen]),
    ← distanceSpec_eq_zipWith_sum _ _ hlen2] at h
  exact h

/-- C20: the sorted pairing is optimal. For lists `L`, `R` of equal length and
every permutation `R2` of `R`, the number `computeDistanceSum(L, R)` returns on
32-bit `int` is at most the sum over `i` of `|L[i] - R2[i]|` taken in exact
integer arithmetic; in particular it is at most the sum of the absolute
differences of the rows as originally paired. The same holds for the value
computed in exact integer arithmetic. -/
theorem computeDistanceSum_le_pairedDistance (L R R2 : Locations)
    (hlen : L.length = R.length) (hperm : R2.Perm R) :
    (∃ d, (computeDistanceSum int32 L R).result = .ok d ∧
      d ≤ pairedDistance L R2 ∧ d ≤ pairedDistance L R) ∧
    (∃ d, (computeDistanceSum exactInt L R).result = .ok d ∧
      d ≤ pairedDistance L R2 ∧ d ≤ pairedDistance L R) := by
  have h2 := sorted_distance_le_paired L R R2 hlen hperm
  have h1 := sorted_distance_le_paired L R R hlen (List.Perm.refl R)
  constructor
  · obtain ⟨d, hd, _, hle, _⟩ := computeDistanceSum_int32_result L R hlen
    exact ⟨d, hd, le_trans hle h2, le_trans hle h1⟩
  · exact ⟨_, computeDistanceSum_exactInt_result L R hlen, h2, h1⟩

/-- Witness of C20: the example lists, with the right column reversed. -/
theorem computeDistanceSum_le_pairedDistance_witness :
    (∃ d, (computeDistanceSum int32 [3, 4, 2, 1, 3, 3] [4, 3, 5, 3, 9, 3]).result = .ok d ∧
      d ≤ pairedDistance [3, 4, 2, 1, 3, 3] [3, 9, 3, 5, 3, 4] ∧
      d ≤ pairedDistance [3, 4, 2, 1, 3, 3] [4, 3, 5, 3, 9, 3]) ∧
    (∃ d, (computeDistanceSum exactInt [3, 4, 2, 1, 3, 3] [4, 3, 5, 3, 9, 3]).result = .ok d ∧
      d ≤ pairedDistance [3, 4, 2, 1, 3, 3] [3, 9, 3, 5, 3, 4] ∧
      d ≤ pairedDistance [3, 4, 2, 1, 3, 3] [4, 3, 5, 3, 9, 3]) :=
  computeDistanceSum_le_pairedDistance [3, 4, 2, 1, 3, 3] [4, 3, 5, 3, 9, 3]
    [3, 9, 3, 5, 3, 4] (by decide) (by decide)

/-! ## The distance reducer against its specification -/

/-- C1, as it is stated, fails on 32-bit `int`: a file of two lines
`0 2147483647` loads `left = [0, 0]` and `right = [2147483647, 2147483647]`;
both absolute differences are `2147483647`, their sum in the `int`
accumulator is `-2`, which is what the function returns, while the sum of the
claim is `4294967294`. -/
theorem computeDistanceSum_int32_counterexample :
    getLocationsFromFile (.readable ["0 2147483647".toList, "0 2147483647".toList])
      = .ok ([0, 0], [2147483647, 2147483647]) ∧
    computeDistanceSum int32 [0, 0] [2147483647, 2147483647]
      = ⟨[0, 0], [2147483647, 2147483647], .ok (-2)⟩ ∧
    distanceSpec [0, 0] [2147483647, 2147483647] = 4294967294 := by
  refine ⟨by decide, by decide, ?_⟩
  simp [distanceSpec, Finset.sum_range_succ]

/-- C1 (amended): for lists of equal length, with `sortedLeft` and
`sortedRight` the ascending sorted permutations of `left` and `right`,
`computeDistanceSum` on 32-bit `int` returns the sum over all indices `i` of
`|sortedLeft[i] - sortedRight[i]|` (taken in exact integer arithmetic) exactly
when that sum is at most `2^31 - 1`; a number is returned in every case. -/
theorem computeDistanceSum_int32_eq_distanceSpec
    (left right sortedLeft sortedRight : Locations)
    (hlen : left.length = right.length)
    (hl : sortedLeft.Sorted (fun a b => a ≤ b) ∧ sortedLeft.Perm left)
    (hr : sortedRight.Sorted (fun a b => a ≤ b) ∧ sortedRight.Perm right) :
    ((computeDistanceSum int32 left right).result = .ok (distanceSpec sortedLeft sortedRight)
      ↔ distanceSpec sortedLeft sortedRight ≤ 2147483647) ∧
    ∃ d, (computeDistanceSum int32 left right).result = .ok d := by
  rw [← sort_eq_of_sorted_perm hl.1 hl.2, ← sort_eq_of_sorted_perm hr.1 hr.2]
  obtain ⟨d, hd, hmax, _, heq⟩ := computeDistanceSum_int32_result left right hlen
  refine ⟨⟨fun h => ?_, fun h => ?_⟩, d, hd⟩
  · rw [hd] at h
    have := Except.ok.inj h
    omega
  · rw [hd, heq h]

/-- Witness of C1 (amended) on the example lists, whose distance sum is 11. -/
theorem computeDistanceSum_int32_eq_distanceSpec_witness :
    (computeDistanceSum int32 [3, 4, 2, 1, 3, 3] [4, 3, 5, 3, 9, 3]).result
      = .ok (distanceSpec [1, 2, 3, 3, 3, 4] [3, 3, 3, 4, 5, 9]) ∧
    distanceSpec [1, 2, 3, 3, 3, 4] [3, 3, 3, 4, 5, 9] = 11 :=
  ⟨((computeDistanceSum_int32_eq_distanceSpec [3, 4, 2, 1, 3, 3] [4, 3, 5, 3, 9, 3]
      [1, 2, 3, 3, 3, 4] [3, 3, 3, 4, 5, 9] (by decide) (by decide) (by decide)).1).mpr
      (by simp [distanceSpec, Finset.sum_range_succ]),
   by simp [distanceSpec, Finset.sum_range_succ]⟩

end Day1
